import Mathlib

/-!
# Verification of the SPGL1 sparse-recovery solver specification

The repository ships a tutorial driver (`tutorials/spgl1.py`) that calls the
`spgl1` solver package: the fixed-budget solve `spg_lasso`, the exact-equality
solve `spg_bp`, the tolerance-based solve `spg_bpdn`, and a complex
partial-Fourier linear operator defined in the tutorial itself.  The solver
core (drivers, SPG iteration, one-norm ball projector, Pareto root-finder) is
not part of the shipped sources, so those components are modelled here from
the specification; the partial-Fourier operator is embedded from the tutorial
source directly.

Rational arithmetic stands in for floating point throughout the modelled
core; residual norms are represented by their squares so that every quantity
stays rational.  The mathematical Pareto function is modelled over the reals.
-/

namespace Spgl1

/-! ## Rational vector and matrix primitives (embedding plumbing) -/

/-- Dot product of two rational vectors (pairs beyond the shorter list are
dropped, as with aligned `numpy` vectors of equal length). -/
def dotQ : List ℚ → List ℚ → ℚ
  | a :: as, c :: cs => a * c + dotQ as cs
  | _, _ => 0

/-- Forward application of a dense matrix, row-major: `A.dot(x)`. -/
def matvec (A : List (List ℚ)) (x : List ℚ) : List ℚ :=
  A.map (fun row => dotQ row x)

/-- Adjoint application of a dense matrix: multiply by the transpose. -/
def rmatvec (A : List (List ℚ)) (y : List ℚ) : List ℚ :=
  matvec A.transpose y

/-- Coordinatewise difference of two vectors. -/
def subQ (a c : List ℚ) : List ℚ := List.zipWith (fun x y => x - y) a c

/-- Scale a vector by a rational. -/
def scaleQ (α : ℚ) (a : List ℚ) : List ℚ := a.map (fun x => α * x)

/-- Squared Euclidean norm of a rational vector. -/
def normSqQ (a : List ℚ) : ℚ := (a.map (fun x => x * x)).sum

/-- Weighted one-norm `Σ wᵢ·|vᵢ|` of a rational vector. -/
def oneNormW (w v : List ℚ) : ℚ :=
  (List.zipWith (fun wi vi => wi * |vi|) w v).sum

/-- Residual `A·x − b`. -/
def residual (A : List (List ℚ)) (b x : List ℚ) : List ℚ :=
  subQ (matvec A x) b

/-! ## One-norm ball projector

Modelled from the spec: `project(v, τ, weights?) -> (x, λ)` minimises
`‖x − v‖₂` subject to `Σ wᵢ|xᵢ| ≤ τ`.  If the weighted one-norm of `v` is
already within the budget, `v` is returned unchanged with `λ = 0`; otherwise
the threshold is located by sorting the scaled magnitudes and scanning for
the breakpoint where the cumulative-sum condition flips, and `v` is
soft-thresholded by `λ/wᵢ` per coordinate. -/

/-- Insert into a descending-sorted list, keeping it descending. -/
def insertDesc (a : ℚ) : List ℚ → List ℚ
  | [] => [a]
  | c :: cs => if c ≤ a then a :: c :: cs else c :: insertDesc a cs

/-- Sort a list of rationals into descending order. -/
def sortDesc : List ℚ → List ℚ
  | [] => []
  | a :: as => insertDesc a (sortDesc as)

/-- Scan of the descending magnitudes locating the last breakpoint `k` at
which the running threshold `(cumsum_k − τ)/k` still lies strictly below the
`k`-th magnitude; returns that threshold. -/
def thresholdScan : List ℚ → ℚ → ℚ → ℕ → ℚ → ℚ
  | [], _, _, _, lam => lam
  | μ :: rest, τ, csum, k, lam =>
    let csum' := csum + μ
    let k' := k + 1
    if (csum' - τ) / (k' : ℚ) < μ then
      thresholdScan rest τ csum' k' ((csum' - τ) / (k' : ℚ))
    else lam

/-- Modelled from the spec: the unique soft-threshold level for a vector of
magnitudes exceeding the budget `τ`, found by the cumulative-sum scan over
the descending sort. -/
def findThreshold (mags : List ℚ) (τ : ℚ) : ℚ :=
  thresholdScan (sortDesc mags) τ 0 0 0

/-- Soft-thresholding of a single coordinate: shrink the magnitude by `lam`,
preserving sign, clipping to zero. -/
def softThresh (a lam : ℚ) : ℚ :=
  if lam < a then a - lam else if a < -lam then a + lam else 0

/-- Modelled from the spec: the one-norm ball projector `project(v, τ, w)`.
The solver package that defines it is absent from the shipped sources; the
spec fixes the guard branch (idempotence on the ball with `λ = 0`) and the
sort-and-scan soft-thresholding otherwise. -/
def project (v : List ℚ) (τ : ℚ) (w : List ℚ) : List ℚ × ℚ :=
  if oneNormW w v ≤ τ then (v, 0)
  else
    let lam := findThreshold (List.zipWith (fun wi vi => wi * |vi|) w v) τ
    (List.zipWith (fun wi vi => softThresh vi (lam / wi)) w v, lam)

/-! ## Options, diagnostics record and solver state

Modelled from the spec: the recognized option settings (verbosity, iteration
budgets, optimality tolerance, weights, warm start) and the structured `info`
result (per-step one-norm and residual-norm sequences, total inner iteration
count, outer step count, convergence flag).  Elapsed wall-clock time is the
one `info` field outside the shallow embedding and is omitted. -/

/-- Modelled from the spec: enumerated option settings of the solver. -/
structure Opts where
  verbosity : ℕ
  iterations : ℕ
  outerBudget : ℕ
  lsBudget : ℕ
  optTol : ℚ
  gamma : ℚ
  stepMin : ℚ
  stepMax : ℚ
  weights : Option (List ℚ)
  xInit : Option (List ℚ)

/-- Default option settings of the modelled solver. -/
def defaultOpts : Opts :=
  { verbosity := 1, iterations := 8, outerBudget := 8, lsBudget := 8
    optTol := 0, gamma := 1 / 10000, stepMin := 1 / 10000, stepMax := 10000
    weights := none, xInit := none }

/-- Modelled from the spec: the structured diagnostics record returned by
every solve.  `stat` encodes the convergence flag and reason: `0` still
running, `1` converged, `2` iteration budget exhausted. -/
structure Info where
  xNorm1 : List ℚ
  rNorm2 : List ℚ
  iterr : ℕ
  nOuter : ℕ
  stat : ℕ

/-- Internal state threaded through the SPG iteration and the outer
root-finding loop: current iterate, previous iterate and gradient (for the
Barzilai-Borwein secant), rolling objective history, last projection dual
value, and the accumulating diagnostics. -/
structure SpgSt where
  x : List ℚ
  xPrev : List ℚ
  gPrev : List ℚ
  hist : List ℚ
  lam : ℚ
  xNorm1 : List ℚ
  rNorm2 : List ℚ
  iterr : ℕ
  nOuter : ℕ
  stat : ℕ

/-- Initial solver state from a (projected) starting iterate. -/
def initSt (x0 : List ℚ) : SpgSt :=
  { x := x0, xPrev := x0, gPrev := x0.map (fun _ => 0), hist := []
    lam := 0, xNorm1 := [], rNorm2 := [], iterr := 0, nOuter := 0, stat := 0 }

/-! ## Barzilai-Borwein step and non-monotone line search -/

/-- Clip a step length into the safeguard interval `[αmin, αmax]`. -/
def clipStep (αmin αmax α : ℚ) : ℚ := max αmin (min αmax α)

/-- Modelled from the spec: Barzilai-Borwein step length from the last two
iterate/gradient pairs, safeguarded to `[αmin, αmax]`; a non-positive or
undefined secant curvature (in particular the first iteration) falls back to
the fixed safeguarded default step. -/
def bbStep (dx dg : List ℚ) (αmin αmax αdflt : ℚ) : ℚ :=
  let num := dotQ dx dx
  let den := dotQ dx dg
  if den ≤ 0 then αdflt else clipStep αmin αmax (num / den)

/-- Maximum of a rolling history list with a default for the empty history. -/
def maxHist (l : List ℚ) (dflt : ℚ) : ℚ := l.foldl max dflt

/-- Modelled from the spec: the non-monotone backtracking line search.  From
the trial step `α`, repeatedly halve until the candidate (gradient step
projected back onto the `τ`-ball) satisfies the relaxed sufficient-decrease
condition against the maximum of the recent objective history; when the
halving budget is exhausted the last candidate is returned with the stall
flag, never an error.  Returns the accepted point, its projection dual
value, and the acceptance flag. -/
def lineSearch (A : List (List ℚ)) (b : List ℚ) (τ : ℚ) (w : List ℚ)
    (γ : ℚ) (x g : List ℚ) (fmax : ℚ) : ℕ → ℚ → List ℚ × ℚ × Bool
  | 0, α =>
    let pr := project (subQ x (scaleQ α g)) τ w
    (pr.1, pr.2, false)
  | fuel + 1, α =>
    let pr := project (subQ x (scaleQ α g)) τ w
    let d := subQ pr.1 x
    let ft := normSqQ (residual A b pr.1)
    if ft ≤ fmax + γ * α * dotQ g d then (pr.1, pr.2, true)
    else lineSearch A b τ w γ x g fmax fuel (α / 2)

/-! ## SPG core for a fixed budget τ -/

/-- Modelled from the spec: one SPG iteration for fixed `τ` — compute the
residual, objective and gradient at the current iterate, form the
safeguarded Barzilai-Borwein trial step, run the non-monotone line search
with projection onto the `τ`-ball, accept the resulting point, append the
new one-norm and residual-norm values to the diagnostics, and evaluate the
convergence test. -/
def spgStep (A : List (List ℚ)) (b : List ℚ) (τ : ℚ) (w : List ℚ)
    (o : Opts) (s : SpgSt) : SpgSt :=
  let r := residual A b s.x
  let f := normSqQ r
  let g := rmatvec A r
  let α := bbStep (subQ s.x s.xPrev) (subQ g s.gPrev) o.stepMin o.stepMax 1
  let ls := lineSearch A b τ w o.gamma s.x g (maxHist s.hist f) o.lsBudget α
  let fNew := normSqQ (residual A b ls.1)
  { x := ls.1, xPrev := s.x, gPrev := g
    hist := (f :: s.hist).take 10
    lam := ls.2.1
    xNorm1 := s.xNorm1 ++ [oneNormW w ls.1]
    rNorm2 := s.rNorm2 ++ [fNew]
    iterr := s.iterr + 1
    nOuter := s.nOuter
    stat := if fNew ≤ o.optTol ∨ f - fNew ≤ o.optTol * f then 1 else 0 }

/-- Modelled from the spec: the SPG inner loop for fixed `τ`, driven by an
explicit iteration budget; a state whose convergence flag is already set is
returned unchanged, and exhausting the budget while still running sets the
non-convergence flag rather than failing. -/
def spgRun (A : List (List ℚ)) (b : List ℚ) (τ : ℚ) (w : List ℚ)
    (o : Opts) : ℕ → SpgSt → SpgSt
  | 0, s => if s.stat = 0 then { s with stat := 2 } else s
  | fuel + 1, s =>
    if s.stat = 0 then spgRun A b τ w o fuel (spgStep A b τ w o s) else s

/-! ## Pareto root-finder (outer loop) -/

/-- Modelled from the spec: the safeguarded Newton/bisection outer loop over
`τ`.  Each outer step runs the SPG core at the current `τ`, reads the Pareto
value (squared residual) and its derivative estimate `−λ` from the core's
dual value, takes the Newton step when it is admissible and falls back to
the bisection midpoint otherwise, shrinks whichever bracket bound preserves
the sign change, and terminates on tolerance, bracket collapse, or budget
exhaustion (best iterate, non-convergence flag). -/
def rootRun (A : List (List ℚ)) (b : List ℚ) (σ : ℚ) (w : List ℚ)
    (o : Opts) : ℕ → ℚ → ℚ → ℚ → SpgSt → SpgSt
  | 0, _, _, _, s => { s with stat := 2 }
  | fuel + 1, τ, τlo, τhi, s =>
    let s1 := spgRun A b τ w o o.iterations { s with stat := 0 }
    let s2 := { s1 with nOuter := s1.nOuter + 1 }
    let φ := normSqQ (residual A b s2.x)
    if φ ≤ σ * σ + o.optTol ∨ τhi - τlo ≤ o.optTol then { s2 with stat := 1 }
    else
      let τN := τ + (φ - σ * σ) / s2.lam
      let τNext := if 0 < s2.lam ∧ τlo < τN ∧ τN < τhi then τN
                   else (τlo + τhi) / 2
      let τlo' := if σ * σ < φ then τ else τlo
      let τhi' := if σ * σ < φ then τhi else τ
      rootRun A b σ w o fuel τNext τlo' τhi' s2

/-! ## Driver API -/

/-- Malformed-input conditions, the only hard failures of the solver. -/
inductive SpgErr where
  | shapeMismatch : SpgErr
  | negParam : SpgErr

/-- Number of unknowns of a dense row-major matrix. -/
def ncols (A : List (List ℚ)) : ℕ := (A.headD []).length

/-- The per-coordinate weights in effect: the `weights` option or all-ones. -/
def weightsOf (o : Opts) (n : ℕ) : List ℚ :=
  o.weights.getD (List.replicate n 1)

/-- The warm-start vector in effect: the `xInit` option or the zero vector. -/
def xInitOf (o : Opts) (n : ℕ) : List ℚ :=
  o.xInit.getD (List.replicate n 0)

/-- Assemble the 4-tuple `(x, residual, gradient, info)` from a final solver
state. -/
def finish (A : List (List ℚ)) (b : List ℚ) (s : SpgSt) :
    List ℚ × List ℚ × List ℚ × Info :=
  let r := residual A b s.x
  (s.x, r, rmatvec A r,
    { xNorm1 := s.xNorm1, rNorm2 := s.rNorm2, iterr := s.iterr
      nOuter := s.nOuter, stat := s.stat })

/-- Modelled from the spec: the fixed-budget driver `spg_lasso(A, b, τ)` —
validate the input (operator shape against `b`, nonnegative `τ`), project
the warm start onto the `τ`-ball, run a single SPG core solve, and assemble
the 4-tuple result. -/
def spg_lasso (A : List (List ℚ)) (b : List ℚ) (τ : ℚ) (o : Opts) :
    Except SpgErr (List ℚ × List ℚ × List ℚ × Info) :=
  if A.length ≠ b.length then .error .shapeMismatch
  else if τ < 0 then .error .negParam
  else
    let n := ncols A
    let w := weightsOf o n
    let x0 := (project (xInitOf o n) τ w).1
    .ok (finish A b (spgRun A b τ w o o.iterations (initSt x0)))

/-- Modelled from the spec: the tolerance-based driver `spg_bpdn(A, b, σ)` —
validate the input (operator shape against `b`, nonnegative `σ`), then run
the full Pareto root-finder sweep from the initial bracket `[0, ‖b‖² + 1]`
and assemble the 4-tuple result. -/
def spg_bpdn (A : List (List ℚ)) (b : List ℚ) (σ : ℚ) (o : Opts) :
    Except SpgErr (List ℚ × List ℚ × List ℚ × Info) :=
  if A.length ≠ b.length then .error .shapeMismatch
  else if σ < 0 then .error .negParam
  else
    let n := ncols A
    let w := weightsOf o n
    let x0 := (project (xInitOf o n) 0 w).1
    .ok (finish A b
      (rootRun A b σ w o o.outerBudget 0 0 (normSqQ b + 1) (initSt x0)))

/-- Modelled from the spec: the exact-equality driver `spg_bp(A, b)` — the
σ = 0 configuration of the tolerance-based sweep (shape validation, full
root-finder run targeting a numerically negligible residual). -/
def spg_bp (A : List (List ℚ)) (b : List ℚ) (o : Opts) :
    Except SpgErr (List ℚ × List ℚ × List ℚ × Info) :=
  if A.length ≠ b.length then .error .shapeMismatch
  else
    let n := ncols A
    let w := weightsOf o n
    let x0 := (project (xInitOf o n) 0 w).1
    .ok (finish A b
      (rootRun A b 0 w o o.outerBudget 0 0 (normSqQ b + 1) (initSt x0)))

/-- `true` exactly on successfully returned results. -/
def isOkE {α : Type} : Except SpgErr α → Bool
  | .ok _ => true
  | .error _ => false

/-! ## Diagnostics-length invariant -/

/-- The diagnostics invariant: both per-step norm sequences have exactly one
entry per counted inner iteration. -/
def histInv (s : SpgSt) : Prop :=
  s.xNorm1.length = s.iterr ∧ s.rNorm2.length = s.iterr

/-- The diagnostics invariant read off a returned 4-tuple. -/
def histOk (t : List ℚ × List ℚ × List ℚ × Info) : Prop :=
  t.2.2.2.xNorm1.length = t.2.2.2.iterr ∧
    t.2.2.2.rNorm2.length = t.2.2.2.iterr

/-- The diagnostics invariant on a driver result; hard errors carry no
diagnostics. -/
def histOkE : Except SpgErr (List ℚ × List ℚ × List ℚ × Info) → Prop
  | .error _ => True
  | .ok t => histOk t

theorem histInv_initSt (x0 : List ℚ) : histInv (initSt x0) := by
  simp [histInv, initSt]

theorem histInv_spgStep (A : List (List ℚ)) (b : List ℚ) (τ : ℚ)
    (w : List ℚ) (o : Opts) (s : SpgSt) (h : histInv s) :
    histInv (spgStep A b τ w o s) := by
  obtain ⟨h1, h2⟩ := h
  simp [histInv, spgStep, h1, h2]

theorem histInv_spgRun (A : List (List ℚ)) (b : List ℚ) (τ : ℚ)
    (w : List ℚ) (o : Opts) :
    ∀ (fuel : ℕ) (s : SpgSt), histInv s → histInv (spgRun A b τ w o fuel s)
  | 0, s, h => by
    unfold spgRun
    split <;> simpa [histInv] using h
  | fuel + 1, s, h => by
    unfold spgRun
    split
    · exact histInv_spgRun A b τ w o fuel _ (histInv_spgStep A b τ w o s h)
    · exact h

theorem histInv_statReset (s : SpgSt) (k : ℕ) (h : histInv s) :
    histInv { s with stat := k } := h

theorem histInv_rootRun (A : List (List ℚ)) (b : List ℚ) (σ : ℚ)
    (w : List ℚ) (o : Opts) :
    ∀ (fuel : ℕ) (τ τlo τhi : ℚ) (s : SpgSt), histInv s →
      histInv (rootRun A b σ w o fuel τ τlo τhi s)
  | 0, _, _, _, s, h => h
  | fuel + 1, τ, τlo, τhi, s, h => by
    unfold rootRun
    have h1 : histInv (spgRun A b τ w o o.iterations { s with stat := 0 }) :=
      histInv_spgRun A b τ w o o.iterations _ (histInv_statReset s 0 h)
    dsimp only
    split
    · exact h1
    · exact histInv_rootRun A b σ w o fuel _ _ _ _ h1

theorem histOk_finish (A : List (List ℚ)) (b : List ℚ) (s : SpgSt)
    (h : histInv s) : histOk (finish A b s) := by
  obtain ⟨h1, h2⟩ := h
  simp [histOk, finish, h1, h2]

end Spgl1

/-- Claim C5: each of the three entry points — fixed-budget `spg_lasso`,
exact-equality `spg_bp`, and tolerance-based `spg_bpdn` — returns, for every
valid input (operator shape matching `b`, nonnegative parameter), a 4-tuple
`(x, residual, gradient, info)`. -/
theorem Spgl1.drivers_return_quadruple (A : List (List ℚ)) (b : List ℚ)
    (τ σ : ℚ) (o : Spgl1.Opts) (hs : A.length = b.length)
    (hτ : 0 ≤ τ) (hσ : 0 ≤ σ) :
    (∃ x r g i, Spgl1.spg_lasso A b τ o = .ok (x, r, g, i)) ∧
      (∃ x r g i, Spgl1.spg_bp A b o = .ok (x, r, g, i)) ∧
      (∃ x r g i, Spgl1.spg_bpdn A b σ o = .ok (x, r, g, i)) := by
  refine ⟨?_, ?_, ?_⟩
  · rw [Spgl1.spg_lasso, if_neg (by simp [hs]), if_neg (not_lt.mpr hτ)]
    exact ⟨_, _, _, _, rfl⟩
  · rw [Spgl1.spg_bp, if_neg (by simp [hs])]
    exact ⟨_, _, _, _, rfl⟩
  · rw [Spgl1.spg_bpdn, if_neg (by simp [hs]), if_neg (not_lt.mpr hσ)]
    exact ⟨_, _, _, _, rfl⟩

/-- Witness for C5 at the valid concrete input `A = [[1]]`, `b = [1]`,
`τ = 1`, `σ = 0` with default options. -/
theorem Spgl1.drivers_return_quadruple_wit :
    ([[(1 : ℚ)]].length = [(1 : ℚ)].length ∧ 0 ≤ (1 : ℚ) ∧ 0 ≤ (0 : ℚ)) ∧
      ((∃ x r g i,
          Spgl1.spg_lasso [[1]] [1] 1 Spgl1.defaultOpts = .ok (x, r, g, i)) ∧
        (∃ x r g i,
          Spgl1.spg_bp [[1]] [1] Spgl1.defaultOpts = .ok (x, r, g, i)) ∧
        (∃ x r g i,
          Spgl1.spg_bpdn [[1]] [1] 0 Spgl1.defaultOpts = .ok (x, r, g, i))) :=
  ⟨⟨rfl, by norm_num, le_refl 0⟩,
   Spgl1.drivers_return_quadruple [[1]] [1] 1 0 Spgl1.defaultOpts rfl
     (by norm_num) (le_refl 0)⟩

/-- Claim C6: for every `(A, b)` and options, the tolerance-based solve with
`σ = 0` and the exact-equality solve produce the same result — in
particular solutions that agree within any tolerance. -/
theorem Spgl1.spg_bp_eq_spg_bpdn_zero (A : List (List ℚ)) (b : List ℚ)
    (o : Spgl1.Opts) : Spgl1.spg_bp A b o = Spgl1.spg_bpdn A b 0 o := by
  rw [Spgl1.spg_bp, Spgl1.spg_bpdn]
  by_cases h : A.length ≠ b.length
  · rw [if_pos h, if_pos h]
  · rw [if_neg h, if_neg h, if_neg (lt_irrefl 0)]

/-- Claim C7: a solve returns a hard error if and only if the input is
malformed — the operator's row count is incompatible with `b`'s length, or
the parameter `τ`/`σ` is negative; every numerical difficulty inside the
iteration instead yields an ordinary result carrying the convergence flag. -/
theorem Spgl1.error_iff_malformed (A : List (List ℚ)) (b : List ℚ)
    (τ σ : ℚ) (o : Spgl1.Opts) :
    (Spgl1.isOkE (Spgl1.spg_lasso A b τ o) = false ↔
        A.length ≠ b.length ∨ τ < 0) ∧
      (Spgl1.isOkE (Spgl1.spg_bp A b o) = false ↔ A.length ≠ b.length) ∧
      (Spgl1.isOkE (Spgl1.spg_bpdn A b σ o) = false ↔
        A.length ≠ b.length ∨ σ < 0) := by
  refine ⟨?_, ?_, ?_⟩
  · by_cases h1 : A.length = b.length <;> by_cases h2 : τ < 0 <;>
      simp [Spgl1.spg_lasso, Spgl1.isOkE, h1, h2]
  · by_cases h1 : A.length = b.length <;>
      simp [Spgl1.spg_bp, Spgl1.isOkE, h1]
  · by_cases h1 : A.length = b.length <;> by_cases h2 : σ < 0 <;>
      simp [Spgl1.spg_bpdn, Spgl1.isOkE, h1, h2]

/-- Claim C8: for every solve, the diagnostics record's per-step one-norm
and residual-norm sequences each have length equal to the recorded inner
iteration count `iterr`, so indexing either by `range(iterr)` is valid. -/
theorem Spgl1.info_hist_lengths (A : List (List ℚ)) (b : List ℚ)
    (τ σ : ℚ) (o : Spgl1.Opts) :
    Spgl1.histOkE (Spgl1.spg_lasso A b τ o) ∧
      Spgl1.histOkE (Spgl1.spg_bp A b o) ∧
      Spgl1.histOkE (Spgl1.spg_bpdn A b σ o) := by
  refine ⟨?_, ?_, ?_⟩
  · rw [Spgl1.spg_lasso]
    split
    · exact trivial
    · split
      · exact trivial
      · exact Spgl1.histOk_finish A b _
          (Spgl1.histInv_spgRun A b τ _ o o.iterations _
            (Spgl1.histInv_initSt _))
  · rw [Spgl1.spg_bp]
    split
    · exact trivial
    · exact Spgl1.histOk_finish A b _
        (Spgl1.histInv_rootRun A b 0 _ o o.outerBudget 0 0 _ _
          (Spgl1.histInv_initSt _))
  · rw [Spgl1.spg_bpdn]
    split
    · exact trivial
    · split
      · exact trivial
      · exact Spgl1.histOk_finish A b _
          (Spgl1.histInv_rootRun A b σ _ o o.outerBudget 0 0 _ _
            (Spgl1.histInv_initSt _))

/-- Claim C9: every solve is deterministic — two runs of any entry point on
equal operator, measurement vector, parameter and options (including any
explicit warm-start vector in the options) produce identical outputs; the
modelled core is a pure function of exactly these inputs and consumes no
randomness. -/
theorem Spgl1.solvers_deterministic (A A' : List (List ℚ))
    (b b' : List ℚ) (τ τ' σ σ' : ℚ) (o o' : Spgl1.Opts)
    (hA : A = A') (hb : b = b') (hτ : τ = τ') (hσ : σ = σ') (ho : o = o') :
    Spgl1.spg_lasso A b τ o = Spgl1.spg_lasso A' b' τ' o' ∧
      Spgl1.spg_bp A b o = Spgl1.spg_bp A' b' o' ∧
      Spgl1.spg_bpdn A b σ o = Spgl1.spg_bpdn A' b' σ' o' := by
  subst hA hb hτ hσ ho
  exact ⟨rfl, rfl, rfl⟩

/-- Witness for C9: two runs at the concrete input `A = [[1]]`, `b = [1]`,
`τ = 1`, `σ = 0`, default options, coincide. -/
theorem Spgl1.solvers_deterministic_wit :
    [[(1 : ℚ)]] = [[(1 : ℚ)]] ∧
      (Spgl1.spg_lasso [[1]] [1] 1 Spgl1.defaultOpts =
          Spgl1.spg_lasso [[1]] [1] 1 Spgl1.defaultOpts ∧
        Spgl1.spg_bp [[1]] [1] Spgl1.defaultOpts =
          Spgl1.spg_bp [[1]] [1] Spgl1.defaultOpts ∧
        Spgl1.spg_bpdn [[1]] [1] 0 Spgl1.defaultOpts =
          Spgl1.spg_bpdn [[1]] [1] 0 Spgl1.defaultOpts) :=
  ⟨rfl,
   Spgl1.solvers_deterministic [[1]] [[1]] [1] [1] 1 1 0 0
     Spgl1.defaultOpts Spgl1.defaultOpts rfl rfl rfl rfl rfl⟩

/-- Claim C3: for every vector `v`, weights `w` and budget `τ ≥ 0` whose
weighted one-norm already satisfies `‖v‖₁ ≤ τ`, the one-norm ball projection
returns `v` unchanged together with dual value `λ = 0`. -/
theorem Spgl1.project_idempotent_on_ball (v w : List ℚ) (τ : ℚ)
    (hτ : 0 ≤ τ) (hball : Spgl1.oneNormW w v ≤ τ) :
    Spgl1.project v τ w = (v, 0) := by
  unfold Spgl1.project
  exact if_pos hball

/-- Witness for C3 at the concrete input `v = [1/2, −1/3]`, `w = [1, 1]`,
`τ = 1`: the weighted one-norm is `5/6 ≤ 1` and the projection is the
identity with zero dual value. -/
theorem Spgl1.project_idempotent_on_ball_wit :
    0 ≤ (1 : ℚ) ∧ Spgl1.oneNormW [1, 1] [1/2, -1/3] ≤ 1 ∧
      Spgl1.project [1/2, -1/3] 1 [1, 1] = ([1/2, -1/3], 0) :=
  ⟨by norm_num,
   by norm_num [Spgl1.oneNormW, abs_of_pos, abs_of_neg],
   Spgl1.project_idempotent_on_ball [1/2, -1/3] [1, 1] 1 (by norm_num)
     (by norm_num [Spgl1.oneNormW, abs_of_pos, abs_of_neg])⟩

namespace Spgl1

/-! ## The Pareto function over the reals

Modelled from the spec: `φ(τ) = min { ‖A·x − b‖₂ : ‖x‖₁ ≤ τ }`, the optimal
value traced by SPG Core solves at fixed budgets `τ`.  The solver package
computing it is absent from the shipped sources, so the mathematical
function fixed by the spec is used directly. -/

/-- One-norm of a real vector. -/
def oneNormR {n : ℕ} (x : Fin n → ℝ) : ℝ := ∑ i, |x i|

/-- Euclidean norm of the residual `A·x − b`. -/
noncomputable def resNorm {m n : ℕ} (A : Matrix (Fin m) (Fin n) ℝ)
    (b : Fin m → ℝ) (x : Fin n → ℝ) : ℝ :=
  Real.sqrt (∑ i, (A.mulVec x i - b i) ^ 2)

/-- Modelled from the spec: the Pareto function `φ(τ)`, the infimum of the
residual norm over the one-norm ball of radius `τ`. -/
noncomputable def paretoPhi {m n : ℕ} (A : Matrix (Fin m) (Fin n) ℝ)
    (b : Fin m → ℝ) (τ : ℝ) : ℝ :=
  sInf (Set.image (resNorm A b) { x | oneNormR x ≤ τ })

theorem oneNormR_zero {n : ℕ} : oneNormR (fun _ : Fin n => (0 : ℝ)) = 0 := by
  simp [oneNormR]

end Spgl1

/-- Claim C2: for every operator `A` and vector `b`, the Pareto function
`φ(τ) = min { ‖A·x − b‖₂ : ‖x‖₁ ≤ τ }` is non-increasing: for all budgets
`0 ≤ τ₁ < τ₂`, `φ(τ₁) ≥ φ(τ₂)`. -/
theorem Spgl1.paretoPhi_antitone {m n : ℕ} (A : Matrix (Fin m) (Fin n) ℝ)
    (b : Fin m → ℝ) (τ₁ τ₂ : ℝ) (h0 : 0 ≤ τ₁) (h12 : τ₁ < τ₂) :
    Spgl1.paretoPhi A b τ₂ ≤ Spgl1.paretoPhi A b τ₁ := by
  apply csInf_le_csInf
  · exact ⟨0, by
      rintro r ⟨x, -, rfl⟩
      exact Real.sqrt_nonneg _⟩
  · exact ⟨Spgl1.resNorm A b (fun _ => 0),
      ⟨fun _ => 0, by simpa [Spgl1.oneNormR_zero] using h0, rfl⟩⟩
  · exact Set.image_subset _ (fun x hx => le_trans hx (le_of_lt h12))

/-- Witness for C2 at the concrete operator `A = [[1]]`, `b = [1]` and the
budgets `τ₁ = 0 < τ₂ = 1`. -/
theorem Spgl1.paretoPhi_antitone_wit :
    (0 : ℝ) ≤ 0 ∧ (0 : ℝ) < 1 ∧
      Spgl1.paretoPhi (fun _ _ => (1 : ℝ) : Matrix (Fin 1) (Fin 1) ℝ)
          (fun _ => 1) 1 ≤
        Spgl1.paretoPhi (fun _ _ => (1 : ℝ) : Matrix (Fin 1) (Fin 1) ℝ)
          (fun _ => 1) 0 :=
  ⟨le_refl 0, by norm_num,
   Spgl1.paretoPhi_antitone (fun _ _ => (1 : ℝ)) (fun _ => 1) 0 1
     (le_refl 0) (by norm_num)⟩

namespace Spgl1

/-! ## The tutorial's complex partial-Fourier operator

Embedded from `tutorials/spgl1.py`: the `LinearOperator` whose forward map
is `y = fft(x)/sqrt(n)` restricted to the rows `idx`, and whose adjoint map
zero-fills into the `idx` positions and applies `ifft(z)*sqrt(n)`.  `np.fft`
is embedded as the mathematical discrete Fourier transform; the tutorial's
`idx` (the first `m` entries of a permutation) is injective, under which the
scatter sum below coincides with the indexed assignment `z[idx] = x`. -/

/-- The negative-sign Fourier kernel `e^(−2·π·i·a·c/n)` used by `fft`. -/
noncomputable def kerN (n a c : ℕ) : ℂ :=
  Complex.exp (-(2 * (Real.pi : ℂ) * Complex.I * (a : ℂ) * (c : ℂ)) / (n : ℂ))

/-- The positive-sign Fourier kernel `e^(2·π·i·a·c/n)` used by `ifft`. -/
noncomputable def kerP (n a c : ℕ) : ℂ :=
  Complex.exp ((2 * (Real.pi : ℂ) * Complex.I * (a : ℂ) * (c : ℂ)) / (n : ℂ))

/-- `np.fft.fft`: the unnormalised discrete Fourier transform. -/
noncomputable def fftC {n : ℕ} (x : Fin n → ℂ) (j : Fin n) : ℂ :=
  ∑ k : Fin n, x k * kerN n j.val k.val

/-- `np.fft.ifft`: the inverse discrete Fourier transform with `1/n`
normalisation. -/
noncomputable def ifftC {n : ℕ} (z : Fin n → ℂ) (k : Fin n) : ℂ :=
  (∑ j : Fin n, z j * kerP n j.val k.val) / (n : ℂ)

/-- The zero-fill `z = zeros(n); z[idx] = y` of the adjoint map, written as
a scatter sum (equal to the indexed assignment whenever `idx` is
injective). -/
noncomputable def scatter {m n : ℕ} (idx : Fin m → Fin n) (y : Fin m → ℂ)
    (j : Fin n) : ℂ :=
  ∑ t : Fin m, if idx t = j then y t else 0

/-- `_matvec` of the tutorial's operator: `(fft(x)/sqrt(n))[idx]`. -/
noncomputable def pfMatvec {m n : ℕ} (idx : Fin m → Fin n)
    (x : Fin n → ℂ) (t : Fin m) : ℂ :=
  fftC x (idx t) / (Real.sqrt n : ℂ)

/-- `_rmatvec` of the tutorial's operator: zero-fill then
`ifft(z)*sqrt(n)`. -/
noncomputable def pfRmatvec {m n : ℕ} (idx : Fin m → Fin n)
    (y : Fin m → ℂ) (k : Fin n) : ℂ :=
  ifftC (scatter idx y) k * (Real.sqrt n : ℂ)

/-- The standard sesquilinear inner product on complex coordinate vectors,
conjugate-linear in the first slot. -/
noncomputable def innerC {p : ℕ} (a c : Fin p → ℂ) : ℂ :=
  ∑ i, (starRingEnd ℂ) (a i) * c i

theorem conj_kerN (n a c : ℕ) : (starRingEnd ℂ) (kerN n a c) = kerP n a c := by
  unfold kerN kerP
  rw [← Complex.exp_conj]
  congr 1
  simp only [map_div₀, map_neg, map_mul, Complex.conj_I, Complex.conj_ofReal,
    map_natCast, map_ofNat]
  ring

end Spgl1

/-- Claim C10: the tutorial's partial-Fourier operator is an adjoint pair —
for every `u ∈ ℂⁿ` and `v ∈ ℂᵐ`, `⟪matvec(u), v⟫ = ⟪u, rmatvec(v)⟫`, since
the forward map is the index-restricted FFT scaled by `1/√n` and the adjoint
zero-fills and applies the inverse FFT scaled by `√n`. -/
theorem Spgl1.pfourier_adjoint {m n : ℕ} (hn : 0 < n)
    (idx : Fin m → Fin n) (hidx : Function.Injective idx)
    (u : Fin n → ℂ) (v : Fin m → ℂ) :
    Spgl1.innerC (Spgl1.pfMatvec idx u) v =
      Spgl1.innerC u (Spgl1.pfRmatvec idx v) := by
  have hnne : ((n : ℂ)) ≠ 0 := Nat.cast_ne_zero.mpr hn.ne'
  have hsne : ((Real.sqrt n : ℝ) : ℂ) ≠ 0 :=
    Complex.ofReal_ne_zero.mpr
      (Real.sqrt_ne_zero'.mpr (Nat.cast_pos.mpr hn))
  have hs : ((Real.sqrt n : ℝ) : ℂ) * ((Real.sqrt n : ℝ) : ℂ) = (n : ℂ) := by
    rw [← Complex.ofReal_mul, Real.mul_self_sqrt (Nat.cast_nonneg n)]
    norm_cast
  have collapse : ∀ k : Fin n,
      (∑ j : Fin n,
          (∑ t : Fin m, if idx t = j then v t else 0) *
            Spgl1.kerP n j.val k.val) =
        ∑ t : Fin m, v t * Spgl1.kerP n (idx t).val k.val := by
    intro k
    calc (∑ j : Fin n,
            (∑ t : Fin m, if idx t = j then v t else 0) *
              Spgl1.kerP n j.val k.val)
        = ∑ j : Fin n, ∑ t : Fin m,
            if idx t = j then v t * Spgl1.kerP n j.val k.val else 0 := by
          refine Finset.sum_congr rfl fun j _ => ?_
          rw [Finset.sum_mul]
          exact Finset.sum_congr rfl fun t _ => by rw [ite_mul, zero_mul]
      _ = ∑ t : Fin m, ∑ j : Fin n,
            if idx t = j then v t * Spgl1.kerP n j.val k.val else 0 :=
          Finset.sum_comm
      _ = ∑ t : Fin m, v t * Spgl1.kerP n (idx t).val k.val := by
          refine Finset.sum_congr rfl fun t _ => ?_
          simpa using Finset.sum_ite_eq Finset.univ (idx t)
            (fun j => v t * Spgl1.kerP n j.val k.val)
  have hL : Spgl1.innerC (Spgl1.pfMatvec idx u) v =
      ∑ t : Fin m, ∑ k : Fin n,
        (starRingEnd ℂ) (u k) * Spgl1.kerP n (idx t).val k.val /
          ((Real.sqrt n : ℝ) : ℂ) * v t := by
    simp only [Spgl1.innerC, Spgl1.pfMatvec, Spgl1.fftC, map_div₀, map_sum,
      map_mul, Complex.conj_ofReal, Spgl1.conj_kerN]
    refine Finset.sum_congr rfl fun t _ => ?_
    rw [Finset.sum_div, Finset.sum_mul]
  have hR : Spgl1.innerC u (Spgl1.pfRmatvec idx v) =
      ∑ k : Fin n, ∑ t : Fin m,
        (starRingEnd ℂ) (u k) *
          (v t * Spgl1.kerP n (idx t).val k.val / (n : ℂ) *
            ((Real.sqrt n : ℝ) : ℂ)) := by
    simp only [Spgl1.innerC, Spgl1.pfRmatvec, Spgl1.ifftC, Spgl1.scatter]
    refine Finset.sum_congr rfl fun k _ => ?_
    rw [collapse k, Finset.sum_div, Finset.sum_mul, Finset.mul_sum]
  rw [hL, hR, Finset.sum_comm]
  refine Finset.sum_congr rfl fun k _ => Finset.sum_congr rfl fun t _ => ?_
  field_simp
  linear_combination (-((starRingEnd ℂ) (u k)) * v t *
    Spgl1.kerP n (idx t).val k.val) * hs

/-- Witness for C10 at `n = 1`, `m = 1`, the injective index map `0 ↦ 0`,
and the constant-one vectors. -/
theorem Spgl1.pfourier_adjoint_wit :
    0 < 1 ∧ Function.Injective (fun _ : Fin 1 => (0 : Fin 1)) ∧
      Spgl1.innerC
          (Spgl1.pfMatvec (fun _ : Fin 1 => (0 : Fin 1)) (fun _ => 1))
          (fun _ => 1) =
        Spgl1.innerC (fun _ : Fin 1 => (1 : ℂ))
          (Spgl1.pfRmatvec (fun _ : Fin 1 => (0 : Fin 1)) (fun _ => 1)) :=
  ⟨Nat.one_pos, fun a c _ => Subsingleton.elim a c,
   Spgl1.pfourier_adjoint Nat.one_pos _ (fun a c _ => Subsingleton.elim a c)
     _ _⟩
